import Mathlib

/-!
Shallow embedding of the create_vox voxel-container codec
(src/voxel.rs, src/model.rs, src/riff.rs, src/voxfile/voxfile.rs).

Byte buffers are `List Nat` with each entry a byte value; machine integers
are `Nat`/`Int` with explicit `% 2^w` where the source wraps. Rust panics
are modelled as `Option`/dedicated result constructors, recoverable
`Result` values as `Except`/`Option`.
-/

namespace CreateVox

/-! ## Little-endian byte primitives (src/convert.rs helpers, src/riff.rs) -/

/-- Bytes of a 32-bit value, little endian: `u32::to_le_bytes` /
`i32_to_array`. Each entry extracts one byte of the low 32 bits. -/
def leBytes4 (n : Nat) : List Nat :=
  [n % 256, n / 256 % 256, n / 65536 % 256, n / 16777216 % 256]

/-- Bytes of an `i32`, little endian (`i32::to_le_bytes`): the two's
complement bit pattern of the low 32 bits. -/
def i32le (n : Int) : List Nat := leBytes4 ((n % 4294967296).toNat)

/-- Value of four little-endian bytes as an unsigned 32-bit pattern. -/
def fromLE4 (b0 b1 b2 b3 : Nat) : Nat :=
  b0 + 256 * b1 + 65536 * b2 + 16777216 * b3

/-- Reads the unsigned 32-bit pattern stored at `pos` in a byte buffer
(the slice `vec[pos..pos+4]` interpreted little-endian). -/
def rawAt (l : List Nat) (pos : Nat) : Nat :=
  fromLE4 (l.getD pos 0) (l.getD (pos + 1) 0) (l.getD (pos + 2) 0) (l.getD (pos + 3) 0)

/-- Signed reinterpretation of a 32-bit pattern (`i32::from_le_bytes` /
`i32_from_vec` in src/riff.rs). -/
def asI32 (raw : Nat) : Int :=
  if raw < 2147483648 then (raw : Int) else (raw : Int) - 4294967296

/-- Rust slice `l[pos..pos+n]`: panics (here `none`) when the range leaves
the buffer. -/
def sliceN (l : List Nat) (pos n : Nat) : Option (List Nat) :=
  if pos + n ≤ l.length then some ((l.drop pos).take n) else none

/-! ## Voxel (src/voxel.rs) -/

/-- A single voxel: position triple of `u8` coordinates plus a `u8`
palette index (src/voxel.rs `Voxel`). -/
structure Voxel where
  x : Nat
  y : Nat
  z : Nat
  colorindex : Nat
deriving DecidableEq

/-! ## Model (src/model.rs) -/

/-- Holds voxel data (src/model.rs `Model`). `size` components are `u16`,
`position` an `i32` triple, `rotation` a `u8` code, `layer` and `id` `i32`. -/
structure Model where
  size : Nat × Nat × Nat
  voxels : List Voxel
  position : Option (Int × Int × Int)
  rotation : Option Nat
  layer : Option Int
  name : Option String
  id : Int
deriving DecidableEq

/-- `Model::new`: empty model of the given size. -/
def Model.new (x y z : Nat) : Model :=
  ⟨(x, y, z), [], none, none, none, none, 0⟩

/-- `Model::add_voxel`: the bounds check computes `position + 1` in `u8`
arithmetic, so it wraps at 255 (release semantics), then widens to `u16`. -/
def Model.add_voxel (m : Model) (v : Voxel) : Except String Model :=
  if (v.x + 1) % 256 > m.size.1 ∨ (v.y + 1) % 256 > m.size.2.1
      ∨ (v.z + 1) % 256 > m.size.2.2 then
    .error "Voxel position greater than Voxobject size"
  else
    .ok { m with voxels := m.voxels ++ [v] }

/-- `Model::add_voxel_at_pos`: same wrapped bounds check, then pushes
`Voxel::new(x, y, z, voxel_index)`. -/
def Model.add_voxel_at_pos (m : Model) (x y z voxel_index : Nat) : Except String Model :=
  if (x + 1) % 256 > m.size.1 ∨ (y + 1) % 256 > m.size.2.1
      ∨ (z + 1) % 256 > m.size.2.2 then
    .error "Position greater than Voxobject size"
  else
    .ok { m with voxels := m.voxels ++ [Voxel.mk x y z voxel_index] }

/-- Outcome of `Model::add_cube`: the early `Err("Cube too large")`, normal
completion, or the panic raised by `add_voxel(...).unwrap()` inside the fill
loops (carrying the mutated state at the moment of the panic). -/
inductive CubeRes where
  | err : Model → CubeRes
  | ok : Model → CubeRes
  | panicked : Model → CubeRes
deriving DecidableEq

/-- Sequentially inserts the listed voxels with `add_voxel(...).unwrap()`;
a bounds failure panics with the partially mutated model. -/
def Model.addVoxelsRun (m : Model) : List Voxel → CubeRes
  | [] => .ok m
  | v :: t =>
    match m.add_voxel v with
    | .ok m2 => m2.addVoxelsRun t
    | .error _ => .panicked m

/-- Voxels pushed by `add_cube`'s triple loop, in loop order
(`startx..endx` outer, `starty..endy`, `startz..endz` inner). -/
def cubeVoxels (startx starty startz endx endy endz colorindex : Nat) : List Voxel :=
  (List.range' startx (endx - startx)).flatMap fun cx =>
    (List.range' starty (endy - starty)).flatMap fun cy =>
      (List.range' startz (endz - startz)).map fun cz =>
        Voxel.mk cx cy cz colorindex

/-- `Model::add_cube`: the pre-check compares `endx` (only) against all
three extents; then fills the cuboid voxel by voxel, unwrapping each
`add_voxel` result. -/
def Model.add_cube (m : Model) (startx starty startz endx endy endz colorindex : Nat) :
    CubeRes :=
  if endx > m.size.1 ∨ endx > m.size.2.1 ∨ endx > m.size.2.2 then
    .err m
  else
    m.addVoxelsRun (cubeVoxels startx starty startz endx endy endz colorindex)

/-! ## Model codec (src/model.rs write/read) -/

/-- Tag bytes of the SIZE chunk. -/
def SIZEtag : List Nat := [83, 73, 90, 69]

/-- Tag bytes of the XYZI chunk. -/
def XYZItag : List Nat := [88, 89, 90, 73]

/-- `write_chunk` (src/riff.rs): 4-byte tag, then content size and
children size as little-endian 32-bit fields. -/
def write_chunk (name : List Nat) (size children : Nat) : List Nat :=
  name ++ leBytes4 size ++ leBytes4 children

/-- Bytes pushed by `Model::write_voxels`: x, y, z, color index per voxel,
in insertion order. -/
def voxelBytes : List Voxel → List Nat
  | [] => []
  | v :: t => v.x :: v.y :: v.z :: v.colorindex :: voxelBytes t

/-- The 12-byte SIZE payload built by `Model::write`: each `u16` extent as
two little-endian bytes padded with two zero bytes. -/
def Model.sizeSlice (m : Model) : List Nat :=
  [m.size.1 % 256, m.size.1 / 256 % 256, 0, 0,
   m.size.2.1 % 256, m.size.2.1 / 256 % 256, 0, 0,
   m.size.2.2 % 256, m.size.2.2 / 256 % 256, 0, 0]

/-- `Model::write`: SIZE chunk (declared size 12), the size payload, the
XYZI chunk sized `4 * count + 4`, the `u32` voxel count, then the voxels. -/
def Model.writeBytes (m : Model) : List Nat :=
  write_chunk SIZEtag 12 0 ++
    (m.sizeSlice ++
      (write_chunk XYZItag ((m.voxels.length % 4294967296) * 4 + 4) 0 ++
        (leBytes4 (m.voxels.length % 4294967296) ++ voxelBytes m.voxels)))

/-- `Model::read`: skips the 12-byte SIZE header, reads the three extents
(each `i32` then truncated `as u16`), skips 16 bytes to pass the XYZI
header, reads the voxel count, then reads each 4-byte voxel record by
computed offset. A negative count yields an empty iteration range. -/
def Model.read (input : List Nat) (cursor : Nat) (id : Int) : Model :=
  let c1 := cursor + 12
  let size_x := rawAt input c1 % 65536
  let c2 := c1 + 4
  let size_y := rawAt input c2 % 65536
  let c3 := c2 + 4
  let size_z := rawAt input c3 % 65536
  let c4 := c3 + 16
  let rawN := rawAt input c4
  let n := if rawN < 2147483648 then rawN else 0
  let c5 := c4 + 4
  let voxels := (List.range n).map fun i =>
    Voxel.mk (input.getD (c5 + 4 * i) 0) (input.getD (c5 + 1 + 4 * i) 0)
      (input.getD (c5 + 2 + 4 * i) 0) (input.getD (c5 + 3 + 4 * i) 0)
  ⟨(size_x, size_y, size_z), voxels, none, none, none, none, id⟩

/-! ## VoxString and Dict (src/riff.rs) -/

/-- Length-prefixed string record (src/riff.rs `VoxString`): an `i32` size
field and the content bytes. -/
structure VoxString where
  size : Int
  content : List Nat
deriving DecidableEq

/-- `VoxString::read`: reads the `i32` size at the cursor, slices that many
bytes as the content and advances the cursor by `4 + size`; an
out-of-bounds slice (or a size making the range invalid) panics (`none`). -/
def VoxString.read (input : List Nat) (cursor : Nat) : Option (VoxString × Nat) :=
  let size := asI32 (rawAt input cursor)
  if cursor + 4 ≤ input.length ∧ 0 ≤ size ∧ cursor + 4 + size.toNat ≤ input.length then
    some (⟨size, (input.drop (cursor + 4)).take size.toNat⟩, cursor + 4 + size.toNat)
  else none

/-- `VoxString::write`: the size field little-endian, then the raw bytes. -/
def VoxString.writeBytes (s : VoxString) : List Nat := i32le s.size ++ s.content

/-- `VoxString::get_size`: size in bytes on the wire. -/
def VoxString.get_size (s : VoxString) : Int := 4 + s.size

/-- Ordered key/value dictionary record (src/riff.rs `Dict`). -/
structure Dict where
  num_of_pairs : Int
  pairs : List (VoxString × VoxString)
deriving DecidableEq

/-- `Dict::write`: the stored pair count little-endian, then each key and
value record in order. -/
def Dict.writeBytes (d : Dict) : List Nat :=
  i32le d.num_of_pairs ++ d.pairs.flatMap fun p => p.1.writeBytes ++ p.2.writeBytes

/-- `Dict::get_size`: 4 plus the accumulated sizes of all pairs, in the
source's fold order. -/
def Dict.get_size (d : Dict) : Int :=
  d.pairs.foldl (fun acc p => acc + (p.1.get_size + p.2.get_size)) 4

/-- Invariant used by the size claims: each stored string size field equals
its content's byte length. -/
def Dict.wellSized (d : Dict) : Prop :=
  ∀ p ∈ d.pairs, p.1.size = (p.1.content.length : Int) ∧ p.2.size = (p.2.content.length : Int)

instance (d : Dict) : Decidable d.wellSized := by
  unfold Dict.wellSized; infer_instance

/-! ## auto_size (src/model.rs) -/

/-- One step of `auto_size`'s first loop: lower each axis of the running
minimum towards the voxel's position. -/
def minStep (acc : Nat × Nat × Nat) (v : Voxel) : Nat × Nat × Nat :=
  (if v.x < acc.1 then v.x else acc.1,
   if v.y < acc.2.1 then v.y else acc.2.1,
   if v.z < acc.2.2 then v.z else acc.2.2)

/-- Per-axis minimum voxel position, starting from (255, 255, 255). -/
def minPos (vs : List Voxel) : Nat × Nat × Nat := vs.foldl minStep (255, 255, 255)

/-- One step of `auto_size`'s extent recomputation, with the source's `u16`
wrap on `new_size - 1` and `u8` wrap on `position + 1`. -/
def sizeStep (acc : Nat × Nat × Nat) (v : Voxel) : Nat × Nat × Nat :=
  (if v.x > (acc.1 + 65535) % 65536 then (v.x + 1) % 256 else acc.1,
   if v.y > (acc.2.1 + 65535) % 65536 then (v.y + 1) % 256 else acc.2.1,
   if v.z > (acc.2.2 + 65535) % 65536 then (v.z + 1) % 256 else acc.2.2)

/-- Extents recomputed from the (already translated) voxels, starting
from (1, 1, 1). -/
def newSize (vs : List Voxel) : Nat × Nat × Nat := vs.foldl sizeStep (1, 1, 1)

/-- `Model::auto_size`: find the per-axis minimum position, translate all
voxels so that minimum lands on the origin, then recompute the extents
from the translated voxels. -/
def Model.auto_size (m : Model) : Model :=
  let sp := minPos m.voxels
  let moved := m.voxels.map fun v =>
    Voxel.mk (v.x - sp.1) (v.y - sp.2.1) (v.z - sp.2.2) v.colorindex
  { m with size := newSize moved, voxels := moved }

/-- Single-axis version of `auto_size`'s minimum loop. -/
def minFold (a : Nat) (l : List Nat) : Nat :=
  l.foldl (fun acc x => if x < acc then x else acc) a


/-! ## Node/material chunk records (src/riff.rs) -/

/-- Tag bytes of the nTRN chunk. -/
def trnTag : List Nat := [110, 84, 82, 78]

/-- Tag bytes of the nGRP chunk. -/
def grpTag : List Nat := [110, 71, 82, 80]

/-- Tag bytes of the nSHP chunk. -/
def shpTag : List Nat := [110, 83, 72, 80]

/-- Tag bytes of the MATL chunk. -/
def matlTag : List Nat := [77, 65, 84, 76]

/-- `write_chunk` as invoked by the node writers, which pass
`get_size() as u32`: the cast preserves the `i32` bit pattern. -/
def write_chunkZ (name : List Nat) (size children : Int) : List Nat :=
  name ++ i32le size ++ i32le children

/-- Transform node chunk (src/riff.rs `nTRN`). -/
structure nTRN where
  node_id : Int
  node_attributes : Dict
  child_node_id : Int
  reserved_id : Int
  layer_id : Int
  num_of_frames : Int
  frame_attributes : Dict
deriving DecidableEq

/-- `nTRN::get_size`: 20 fixed bytes plus both dictionaries. -/
def nTRN.get_size (t : nTRN) : Int :=
  20 + t.node_attributes.get_size + t.frame_attributes.get_size

/-- `nTRN::write`: header declaring `get_size` content bytes and 0
children bytes, then the fields in order. -/
def nTRN.writeBytes (t : nTRN) : List Nat :=
  write_chunkZ trnTag t.get_size 0 ++
    (i32le t.node_id ++ t.node_attributes.writeBytes ++ i32le t.child_node_id ++
      i32le t.reserved_id ++ i32le t.layer_id ++ i32le t.num_of_frames ++
      t.frame_attributes.writeBytes)

/-- Group node chunk (src/riff.rs `nGRP`). -/
structure nGRP where
  node_id : Int
  node_attributes : Dict
  num_of_children_nodes : Int
  child_id : List Int
deriving DecidableEq

/-- `nGRP::get_size`: 8 fixed bytes plus the dictionary plus 4 bytes per
child id. -/
def nGRP.get_size (g : nGRP) : Int :=
  8 + g.node_attributes.get_size + (g.child_id.length : Int) * 4

/-- `nGRP::write`. -/
def nGRP.writeBytes (g : nGRP) : List Nat :=
  write_chunkZ grpTag g.get_size 0 ++
    (i32le g.node_id ++ g.node_attributes.writeBytes ++ i32le g.num_of_children_nodes ++
      g.child_id.flatMap i32le)

/-- Shape node chunk (src/riff.rs `nSHP`). -/
structure nSHP where
  node_id : Int
  node_attributes : Dict
  num_of_models : Int
  model_id : Int
  model_attributes : Dict
deriving DecidableEq

/-- `nSHP::get_size`: 12 fixed bytes plus both dictionaries. -/
def nSHP.get_size (s : nSHP) : Int :=
  12 + s.node_attributes.get_size + s.model_attributes.get_size

/-- `nSHP::write`. -/
def nSHP.writeBytes (s : nSHP) : List Nat :=
  write_chunkZ shpTag s.get_size 0 ++
    (i32le s.node_id ++ s.node_attributes.writeBytes ++ i32le s.num_of_models ++
      i32le s.model_id ++ s.model_attributes.writeBytes)

/-- Material chunk (src/riff.rs `MATL`). -/
structure MATL where
  material_id : Int
  properties : Dict
deriving DecidableEq

/-- `MATL::get_size`: 4 fixed bytes plus the property dictionary. -/
def MATL.get_size (mt : MATL) : Int := 4 + mt.properties.get_size

/-- `MATL::write`. -/
def MATL.writeBytes (mt : MATL) : List Nat :=
  write_chunkZ matlTag mt.get_size 0 ++ (i32le mt.material_id ++ mt.properties.writeBytes)

/-! ## Concrete sample records used by witnesses -/

/-- A one-pair dictionary whose stored sizes match the content lengths. -/
abbrev sampleDict : Dict := Dict.mk 1 [(VoxString.mk 2 [104, 105], VoxString.mk 1 [33])]

/-- A concrete transform chunk record. -/
abbrev sampleTRN : nTRN := nTRN.mk 0 sampleDict 1 (-1) (-1) 1 (Dict.mk 0 [])

/-- A concrete group chunk record with two children. -/
abbrev sampleGRP : nGRP := nGRP.mk 1 (Dict.mk 0 []) 2 [2, 3]

/-- A concrete shape chunk record. -/
abbrev sampleSHP : nSHP := nSHP.mk 2 (Dict.mk 0 []) 1 0 (Dict.mk 0 [])

/-- A concrete material chunk record. -/
abbrev sampleMATL : MATL := MATL.mk 5 sampleDict

/-! ## Scene-graph nodes (crate::node — the node module is not under src/,
so the node data types and helpers are modelled from the spec; the
functions of src/model.rs and src/voxfile/voxfile.rs that use them are
embedded from the source) -/

/-- Modelled from the spec: the `Transform` payload of the node module
(not under src/) — layer index, optional rotation code, optional
translation (§3 SceneNode). -/
structure Transform where
  layer : Int
  rotation : Option Int
  translation : Option (Int × Int × Int)
deriving DecidableEq

/-- Modelled from the spec: `Transform::default()`, the identity placement
used for the root node (§4.4): layer 0, rotation and translation absent. -/
def Transform.default : Transform := ⟨0, none, none⟩

/-- Modelled from the spec: the node variant set Transform/Group/Shape
(§3 SceneNode); a Shape carries a model id. -/
inductive NodeType where
  | transform : Transform → NodeType
  | group : NodeType
  | shape : Int → NodeType
deriving DecidableEq

/-- Modelled from the spec: node-level attributes — optional display name,
optional hidden flag (§3 SceneNode). -/
structure NodeAttributes where
  name : Option String
  hidden : Option Bool
deriving DecidableEq

/-- Modelled from the spec: `NodeAttributes::new()`, all fields absent. -/
def NodeAttributes.new : NodeAttributes := ⟨none, none⟩

/-- Modelled from the spec: a scene node — a tagged variant with an
attribute record and an ordered list of exclusively owned children. -/
inductive Node where
  | mk (node_type : NodeType) (attributes : NodeAttributes) (children : List Node)

/-- Variant tag of a node. -/
def Node.node_type : Node → NodeType
  | .mk t _ _ => t

/-- Attribute record of a node. -/
def Node.attributes : Node → NodeAttributes
  | .mk _ a _ => a

/-- Ordered child list of a node. -/
def Node.children : Node → List Node
  | .mk _ _ c => c

/-- Modelled from the spec: `Node::new` creates a childless node. -/
def Node.new (t : NodeType) (a : NodeAttributes) : Node := .mk t a []

/-- Modelled from the spec: `Node::add_child` appends a child. -/
def Node.add_child : Node → Node → Node
  | .mk t a c, child => .mk t a (c ++ [child])

/-- Modelled from the spec: `Node::has_child_shape` (node module, not
under src/) — whether the node has a Shape child; it is the eligibility
gate of §4.5 used by `check_transform` before indexing `children[0]`. -/
def Node.has_child_shape (n : Node) : Bool :=
  n.children.any fun c =>
    match c.node_type with
    | .shape _ => true
    | _ => false

/-- `Model::transform_data` (src/model.rs): layer defaults to 0, rotation
is widened to i32 when present, translation is the stored position. -/
def Model.transform_data (m : Model) : Transform :=
  ⟨m.layer.getD 0, m.rotation.map fun r => (r : Int), m.position⟩

/-- `Model::to_node` (src/model.rs): a transform node carrying the model's
placement and name, with a single shape child carrying the model's id. -/
def Model.to_node (m : Model) : Node :=
  (Node.new (.transform m.transform_data) ⟨m.name, none⟩).add_child
    (Node.new (.shape m.id) NodeAttributes.new)

/-- Modelled from the spec: one RGBA palette slot (crate::Color is not
under src/; the claims only move it around unchanged). -/
structure Color where
  r : Nat
  g : Nat
  b : Nat
  a : Nat
deriving DecidableEq

/-- Modelled from the spec: a layer record (crate::layer is not under
src/; the claims only move the layer list around unchanged). -/
structure Layer where
  id : Int
deriving DecidableEq

/-- Container (src/voxfile/voxfile.rs `VoxFile`): model list, palette,
root scene node, layer list. -/
structure VoxFile where
  models : List Model
  palette : List Color
  root_node : Node
  layers : List Layer

/-- `VoxFile::make_nodes` (src/voxfile/voxfile.rs): a fresh root transform
node with default placement containing one group node whose children are
the models' nodes in list order. -/
def VoxFile.make_nodes (v : VoxFile) : VoxFile :=
  let root_node := Node.new (.transform Transform.default) NodeAttributes.new
  let group_node := Node.new .group NodeAttributes.new
  let group2 := v.models.foldl (fun g m => g.add_child m.to_node) group_node
  { v with root_node := root_node.add_child group2 }

/-- `VoxFile::check_transform` (src/voxfile/voxfile.rs): extracts
(id, pos, layer) from a transform node gated by `has_child_shape`, reading
the id from the first child; other nodes yield none. The `children[0]`
index is only reached when `has_child_shape` holds, so the empty-children
arm is unreachable in Rust. -/
def VoxFile.check_transform (n : Node) :
    Option (Int × Option (Int × Int × Int) × Option Int) :=
  match n.node_type with
  | .transform tdata =>
    if n.has_child_shape then
      match n.children with
      | c :: _ =>
        match c.node_type with
        | .shape shape_id => some (shape_id, tdata.translation, some tdata.layer)
        | _ => none
      | [] => none
    else none
  | _ => none

/-- `VoxFile::change_model_data` (src/voxfile/voxfile.rs): sets position
and layer on every model whose id matches. -/
def VoxFile.change_model_data (v : VoxFile) (id : Int)
    (pos : Option (Int × Int × Int)) (layer : Option Int) : VoxFile :=
  { v with models := v.models.map fun m =>
      if m.id = id then { m with position := pos, layer := layer } else m }

mutual
/-- Modelled from the spec: `Node::get_child_data_to_models` (node module,
not under src/) — the §4.5 second pass walks the tree; wherever
`check_transform` yields placement data it is applied via
`change_model_data`, and the walk recurses into the children in order. -/
def Node.apply_to_models : Node → VoxFile → VoxFile
  | .mk t a cs, v =>
    let v1 := match VoxFile.check_transform (.mk t a cs) with
      | some (id, pos, layer) => v.change_model_data id pos layer
      | none => v
    Node.applyChildren cs v1

/-- Modelled from the spec: the walk over a child list, left to right. -/
def Node.applyChildren : List Node → VoxFile → VoxFile
  | [], v => v
  | c :: t, v => Node.applyChildren t (c.apply_to_models v)
end

/-- `VoxFile::get_node_data` (src/voxfile/voxfile.rs): applies the root
tree's placement data to the models. -/
def VoxFile.get_node_data (v : VoxFile) : VoxFile :=
  v.root_node.apply_to_models v

mutual
/-- Placement triples extracted by the reconciliation walk, in traversal
order. -/
def Node.placementTriples : Node → List (Int × Option (Int × Int × Int) × Option Int)
  | .mk t a cs =>
    (match VoxFile.check_transform (.mk t a cs) with
      | some tr => [tr]
      | none => []) ++ Node.triplesChildren cs

/-- Placement triples of a child list, in order. -/
def Node.triplesChildren : List Node → List (Int × Option (Int × Int × Int) × Option Int)
  | [] => []
  | c :: t => c.placementTriples ++ Node.triplesChildren t
end

/-- Model ids referenced by eligible transform/shape pairs of the tree. -/
def Node.placementIds (n : Node) : List Int := n.placementTriples.map fun tr => tr.1

/-- Applies a list of placement triples to one model, in order. -/
def applyTriples (ts : List (Int × Option (Int × Int × Int) × Option Int)) (m : Model) :
    Model :=
  ts.foldl (fun m tr =>
    if m.id = tr.1 then { m with position := tr.2.1, layer := tr.2.2 } else m) m

/-- A concrete container used by witnesses: two models with ids 3 and 5. -/
def sampleVox : VoxFile :=
  ⟨[{ Model.new 2 2 2 with id := 3 }, { Model.new 4 4 4 with id := 5 }],
    [], Node.new .group NodeAttributes.new, []⟩

/-- A concrete reconciliation tree used by witnesses: an eligible
transform/shape pair referencing model id 3 (and never id 5). -/
def sampleRoot : Node :=
  Node.mk (.transform Transform.default) NodeAttributes.new
    [Node.mk (.shape 3) NodeAttributes.new []]

/-! ## Chunk scanning (src/riff.rs find_chunk / num_of_chunks) -/

/-- Outcome of `find_chunk`: the byte offset of the located chunk, the
`Err(())` NotFound result, a Rust panic (out-of-range slice), or fuel
exhaustion standing in for a non-terminating wrapped scan. -/
inductive FindRes where
  | ok : Nat → FindRes
  | err : FindRes
  | panicked : FindRes
  | diverged : FindRes
deriving DecidableEq

/-- Loop of `find_chunk`. State: the u32 scan position, the `num_chunk`
counter (i32) and the previously read chunk name (the source's
`chunk_name`, consulted by the while condition at the top of each round,
initially the empty string). Position arithmetic wraps at 2^32 as the
source's u32 does, and the end-of-buffer comparison truncates the buffer
length to u32 (`contents.len() as u32`). -/
def findLoop (contents name : List Nat) (number : Int) :
    Nat → Nat → Int → List Nat → FindRes
  | 0, _, _, _ => .diverged
  | fuel + 1, pos, numChunk, prevName =>
    if prevName = name ∧ numChunk = number + 1 then .err
    else
      match sliceN contents pos 4 with
      | none => .panicked
      | some tag =>
        if tag = name ∧ numChunk = number then .ok pos
        else
          let numChunk2 := if tag = name then numChunk + 1 else numChunk
          match sliceN contents (pos + 4) 4 with
          | none => .panicked
          | some szb =>
            let size := fromLE4 (szb.getD 0 0) (szb.getD 1 0) (szb.getD 2 0) (szb.getD 3 0)
            let pos2 := (pos + 4 + size + 8) % 4294967296
            if pos2 ≥ contents.length % 4294967296 then .err
            else findLoop contents name number fuel pos2 numChunk2 tag

/-- `find_chunk` (src/riff.rs): scans from offset 8 for the `number`-th
chunk named `name`. The fuel `length + 1` covers every terminating scan,
since each iteration of a well-formed scan consumes at least 12 bytes. -/
def find_chunk (contents name : List Nat) (number : Int) : FindRes :=
  findLoop contents name number (contents.length + 1) 8 1 []

/-- Outcome of `num_of_chunks`. -/
inductive CountRes where
  | ok : Int → CountRes
  | panicked : CountRes
  | diverged : CountRes
deriving DecidableEq

/-- Loop of `num_of_chunks`: scan while the position is inside the buffer,
counting the chunks whose tag matches. -/
def numLoop (contents name : List Nat) : Nat → Nat → Int → CountRes
  | 0, _, _ => .diverged
  | fuel + 1, pos, count =>
    if pos < contents.length then
      match sliceN contents pos 4 with
      | none => .panicked
      | some tag =>
        let count2 := if tag = name then count + 1 else count
        match sliceN contents (pos + 4) 4 with
        | none => .panicked
        | some szb =>
          let size := fromLE4 (szb.getD 0 0) (szb.getD 1 0) (szb.getD 2 0) (szb.getD 3 0)
          numLoop contents name fuel ((pos + 4 + size + 8) % 4294967296) count2
    else .ok count

/-- `num_of_chunks` (src/riff.rs): counts the chunks named `name`. -/
def num_of_chunks (contents name : List Nat) : CountRes :=
  numLoop contents name (contents.length + 1) 8 0

/-- A well-formed chunk as laid out on the wire: a 4-byte tag, the content
length as the declared u32 content size, a declared u32 children size,
then exactly that many content bytes. -/
structure Chunk where
  tag : List Nat
  childrenSize : Nat
  content : List Nat
deriving DecidableEq

/-- Wire bytes of a chunk. -/
def Chunk.bytes (c : Chunk) : List Nat :=
  c.tag ++ leBytes4 c.content.length ++ leBytes4 c.childrenSize ++ c.content

/-- Concatenated wire bytes of a chunk sequence. -/
def tileChunks : List Chunk → List Nat
  | [] => []
  | c :: t => c.bytes ++ tileChunks t

/-- Byte offsets, from the given start position, of the chunks whose tag
matches. -/
def matchOffsets (name : List Nat) : List Chunk → Nat → List Nat
  | [], _ => []
  | c :: t, pos =>
    (if c.tag = name then [pos] else [])
      ++ matchOffsets name t (pos + (12 + c.content.length))

/-- Number of chunks whose tag matches. -/
def countMatches (name : List Nat) : List Chunk → Nat
  | [] => 0
  | c :: t => (if c.tag = name then 1 else 0) + countMatches name t

/-- A concrete well-formed chunk list used by witnesses: a 12-byte MAIN
chunk with empty content, then a 13-byte PACK chunk with one content
byte. -/
abbrev sampleChunks : List Chunk :=
  [Chunk.mk [77, 65, 73, 78] 0 [], Chunk.mk [80, 65, 67, 75] 0 [9]]

/-! ## Claim C9 -/

/-- C9: `VoxString::read` on the 6-byte buffer [2,0,0,0,104,105] at cursor
0 returns the content bytes of "hi" ([104, 105]) with stored size 2,
size-on-wire 6, and advances the cursor to 6; a `Dict` with zero pairs has
`get_size` 4 and writes exactly the four little-endian zero-count bytes. -/
theorem voxstring_dict_concrete_scenario :
    VoxString.read [2, 0, 0, 0, 104, 105] 0 = some (VoxString.mk 2 [104, 105], 6)
    ∧ (VoxString.mk 2 [104, 105]).get_size = 6
    ∧ (Dict.mk 0 []).get_size = 4
    ∧ (Dict.mk 0 []).writeBytes = [0, 0, 0, 0] := by
  refine ⟨?_, by decide, by decide, rfl⟩
  rfl

/-! ## Claim C2 (code bug: u8 wrap in the bounds check) -/

/-- C2: evaluation of the code at the failing input. The bounds check of
`add_voxel` and `add_voxel_at_pos` computes `position + 1` in `u8`
arithmetic, which wraps to 0 for a component equal to 255, so a voxel at
(255, 0, 0) is accepted into a model of size (10, 10, 10) even though
255 < 10 fails — the claim (and the function's own doc comment) requires
rejection with the grid unchanged. -/
theorem add_voxel_u8_wrap_accepts_out_of_bounds :
    (Model.new 10 10 10).add_voxel (Voxel.mk 255 0 0 1)
      = .ok { Model.new 10 10 10 with voxels := [Voxel.mk 255 0 0 1] }
    ∧ (Model.new 10 10 10).add_voxel_at_pos 255 0 0 1
      = .ok { Model.new 10 10 10 with voxels := [Voxel.mk 255 0 0 1] }
    ∧ ¬ (255 < 10) := by
  exact ⟨rfl, rfl, by decide⟩

/-! ## Claim C3 (code bug: pre-check tests endx against all three axes) -/

/-- C3: evaluation of the code at the failing input. `add_cube`'s pre-check
compares only `endx` against the three extents, so a cuboid with
`endy = 20` on a grid of size (10, 10, 10) passes the check; the fill loop
then pushes the ten voxels (0, 0, 0)…(0, 9, 0) before the eleventh
insertion fails its bounds check and the `unwrap` panics, leaving the
voxel list mutated — the claim requires rejection before any voxel is
added. -/
theorem add_cube_missing_axis_check_not_atomic :
    (Model.new 10 10 10).add_cube 0 0 0 1 20 1 1
      = .panicked { Model.new 10 10 10 with
          voxels := (List.range 10).map fun cy => Voxel.mk 0 cy 0 1 }
    ∧ ((List.range 10).map fun cy => Voxel.mk 0 cy 0 1) ≠ (Model.new 10 10 10).voxels
    ∧ (20 > 10) := by
  refine ⟨by decide, by decide, by decide⟩

/-! ## Claim C8 (auto_size idempotent) -/

theorem minFold_le_init (a : Nat) (l : List Nat) : minFold a l ≤ a := by
  induction l generalizing a with
  | nil => simp [minFold]
  | cons x t ih =>
    simp only [minFold, List.foldl_cons] at *
    split
    · exact le_trans (ih x) (by omega)
    · exact ih a

theorem minFold_le_mem (a : Nat) (l : List Nat) : ∀ x ∈ l, minFold a l ≤ x := by
  induction l generalizing a with
  | nil => intro x hx; simp at hx
  | cons y t ih =>
    intro x hx
    rcases List.mem_cons.mp hx with rfl | hx
    · simp only [minFold, List.foldl_cons]
      split
      · exact minFold_le_init _ _
      · exact le_trans (minFold_le_init _ _) (by omega)
    · simp only [minFold, List.foldl_cons]
      split <;> exact ih _ x hx

theorem minFold_attained (a : Nat) (l : List Nat) :
    minFold a l = a ∨ minFold a l ∈ l := by
  induction l generalizing a with
  | nil => left; rfl
  | cons y t ih =>
    simp only [minFold, List.foldl_cons]
    split
    · rcases ih y with h | h
      · right
        show minFold y t ∈ y :: t
        rw [h]; exact List.mem_cons_self _ _
      · right
        show minFold y t ∈ y :: t
        exact List.mem_cons_of_mem _ h
    · rcases ih a with h | h
      · left; exact h
      · right
        show minFold a t ∈ y :: t
        exact List.mem_cons_of_mem _ h

/-- The triple fold of `auto_size` splits into three independent per-axis
minimum folds. -/
theorem minPos_components (vs : List Voxel) :
    minPos vs = (minFold 255 (vs.map Voxel.x), minFold 255 (vs.map Voxel.y),
      minFold 255 (vs.map Voxel.z)) := by
  suffices h : ∀ a b c : Nat, vs.foldl minStep (a, b, c)
      = (minFold a (vs.map Voxel.x), minFold b (vs.map Voxel.y),
         minFold c (vs.map Voxel.z)) from h 255 255 255
  induction vs with
  | nil => intro a b c; rfl
  | cons v t ih =>
    intro a b c
    simp only [List.foldl_cons, List.map_cons, minFold, minStep]
    exact ih _ _ _

/-- On a nonempty voxel list with byte-bounded coordinates, the per-axis
minimum of `auto_size` is attained by some list entry. -/
theorem minFold_exists_eq (l : List Nat) (hne : l ≠ []) (hb : ∀ x ∈ l, x ≤ 255) :
    ∃ x ∈ l, x = minFold 255 l := by
  rcases minFold_attained 255 l with h | h
  · rcases l with _ | ⟨y, t⟩
    · exact absurd rfl hne
    · refine ⟨y, List.mem_cons_self _ _, ?_⟩
      have h1 := minFold_le_mem 255 (y :: t) y (List.mem_cons_self _ _)
      have h2 := hb y (List.mem_cons_self _ _)
      omega
  · exact ⟨_, h, rfl⟩

/-- After one `auto_size` pass, the translated voxels have per-axis
minimum 0 (nonempty case), so the second pass translates by nothing. -/
theorem minFold_shifted_zero (l : List Nat) (hne : l ≠ []) (hb : ∀ x ∈ l, x ≤ 255) :
    minFold 255 (l.map (fun x => x - minFold 255 l)) = 0 := by
  obtain ⟨x, hx, hxe⟩ := minFold_exists_eq l hne hb
  have hz : (0 : Nat) ∈ l.map (fun x => x - minFold 255 l) := by
    refine List.mem_map.mpr ⟨x, hx, ?_⟩
    omega
  have := minFold_le_mem 255 (l.map (fun x => x - minFold 255 l)) 0 hz
  omega

/-- C8: `auto_size` is idempotent — a second application leaves both the
dimensions and the voxel list (positions and indices) of the first
application unchanged, including on an empty voxel list. -/
theorem auto_size_idempotent (m : Model)
    (hv : ∀ v ∈ m.voxels, v.x ≤ 255 ∧ v.y ≤ 255 ∧ v.z ≤ 255) :
    m.auto_size.auto_size.size = m.auto_size.size ∧
    m.auto_size.auto_size.voxels = m.auto_size.voxels := by
  rcases hvs : m.voxels with _ | ⟨v0, t0⟩
  · constructor <;> simp [Model.auto_size, hvs, minPos, newSize]
  · -- nonempty voxel list
    have hne : m.voxels ≠ [] := by rw [hvs]; simp
    set sp := minPos m.voxels with hsp
    set moved := m.voxels.map fun v =>
      Voxel.mk (v.x - sp.1) (v.y - sp.2.1) (v.z - sp.2.2) v.colorindex with hmoved
    have hmovedne : moved ≠ [] := by
      rw [hmoved, hvs]; simp
    -- the translated list has per-axis minimum 0
    have hxs : moved.map Voxel.x = (m.voxels.map Voxel.x).map (fun x => x - minFold 255 (m.voxels.map Voxel.x)) := by
      rw [hmoved, List.map_map, List.map_map]
      apply List.map_congr_left
      intro v _
      simp [hsp, minPos_components]
    have hys : moved.map Voxel.y = (m.voxels.map Voxel.y).map (fun x => x - minFold 255 (m.voxels.map Voxel.y)) := by
      rw [hmoved, List.map_map, List.map_map]
      apply List.map_congr_left
      intro v _
      simp [hsp, minPos_components]
    have hzs : moved.map Voxel.z = (m.voxels.map Voxel.z).map (fun x => x - minFold 255 (m.voxels.map Voxel.z)) := by
      rw [hmoved, List.map_map, List.map_map]
      apply List.map_congr_left
      intro v _
      simp [hsp, minPos_components]
    have hxne : m.voxels.map Voxel.x ≠ [] := by simpa using hne
    have hyne : m.voxels.map Voxel.y ≠ [] := by simpa using hne
    have hzne : m.voxels.map Voxel.z ≠ [] := by simpa using hne
    have hxb : ∀ x ∈ m.voxels.map Voxel.x, x ≤ 255 := by
      intro x hx; rcases List.mem_map.mp hx with ⟨v, hvmem, rfl⟩; exact (hv v hvmem).1
    have hyb : ∀ x ∈ m.voxels.map Voxel.y, x ≤ 255 := by
      intro x hx; rcases List.mem_map.mp hx with ⟨v, hvmem, rfl⟩; exact (hv v hvmem).2.1
    have hzb : ∀ x ∈ m.voxels.map Voxel.z, x ≤ 255 := by
      intro x hx; rcases List.mem_map.mp hx with ⟨v, hvmem, rfl⟩; exact (hv v hvmem).2.2
    have hmin : minPos moved = (0, 0, 0) := by
      rw [minPos_components, hxs, hys, hzs,
        minFold_shifted_zero _ hxne hxb, minFold_shifted_zero _ hyne hyb,
        minFold_shifted_zero _ hzne hzb]
    -- the second pass is the identity on the voxel list
    have hmoved2 : moved.map (fun v =>
        Voxel.mk (v.x - (minPos moved).1) (v.y - (minPos moved).2.1)
          (v.z - (minPos moved).2.2) v.colorindex) = moved := by
      rw [hmin]
      show moved.map (fun v => Voxel.mk (v.x - 0) (v.y - 0) (v.z - 0) v.colorindex) = moved
      have hid : (fun v : Voxel =>
          Voxel.mk (v.x - 0) (v.y - 0) (v.z - 0) v.colorindex) = id := by
        funext v; rfl
      rw [hid, List.map_id]
    have hvox : m.auto_size.voxels = moved := rfl
    have h2vox : m.auto_size.auto_size.voxels
        = moved.map (fun v => Voxel.mk (v.x - (minPos moved).1) (v.y - (minPos moved).2.1)
            (v.z - (minPos moved).2.2) v.colorindex) := by
      show m.auto_size.voxels.map (fun v =>
          Voxel.mk (v.x - (minPos m.auto_size.voxels).1) (v.y - (minPos m.auto_size.voxels).2.1)
            (v.z - (minPos m.auto_size.voxels).2.2) v.colorindex) = _
      rw [hvox]
    constructor
    · show newSize m.auto_size.auto_size.voxels = newSize m.auto_size.voxels
      rw [h2vox, hmoved2, hvox]
    · rw [h2vox, hvox, hmoved2]

/-- C8 witness: the idempotency theorem applied to a concrete model. -/
theorem auto_size_idempotent_witness :
    (∀ v ∈ ({ Model.new 3 3 3 with voxels := [Voxel.mk 2 2 2 1, Voxel.mk 1 2 1 5] } : Model).voxels,
        v.x ≤ 255 ∧ v.y ≤ 255 ∧ v.z ≤ 255)
    ∧ (({ Model.new 3 3 3 with voxels := [Voxel.mk 2 2 2 1, Voxel.mk 1 2 1 5] } : Model).auto_size.auto_size.size
        = ({ Model.new 3 3 3 with voxels := [Voxel.mk 2 2 2 1, Voxel.mk 1 2 1 5] } : Model).auto_size.size
      ∧ ({ Model.new 3 3 3 with voxels := [Voxel.mk 2 2 2 1, Voxel.mk 1 2 1 5] } : Model).auto_size.auto_size.voxels
        = ({ Model.new 3 3 3 with voxels := [Voxel.mk 2 2 2 1, Voxel.mk 1 2 1 5] } : Model).auto_size.voxels) :=
  ⟨by decide, auto_size_idempotent _ (by decide)⟩

/-! ## Claim C4 (chunk headers declare exact body sizes) -/

theorem i32le_length (n : Int) : (i32le n).length = 4 := rfl

/-- The dictionary size fold shifted to an explicit sum. -/
theorem dict_foldl_shift (l : List (VoxString × VoxString)) :
    ∀ a : Int, l.foldl (fun acc p => acc + (p.1.get_size + p.2.get_size)) a
      = a + (l.map fun p => p.1.get_size + p.2.get_size).sum := by
  induction l with
  | nil => intro a; simp
  | cons p t ih =>
    intro a
    simp only [List.foldl_cons, List.map_cons, List.sum_cons]
    rw [ih]
    ring

/-- Byte length of the written pair list under the stored-size invariant. -/
theorem pairsBytes_length (l : List (VoxString × VoxString))
    (h : ∀ p ∈ l, p.1.size = (p.1.content.length : Int) ∧ p.2.size = (p.2.content.length : Int)) :
    (((l.flatMap fun p => p.1.writeBytes ++ p.2.writeBytes).length : Int))
      = (l.map fun p => p.1.get_size + p.2.get_size).sum := by
  induction l with
  | nil => simp
  | cons p t ih =>
    have hp := h p (List.mem_cons_self _ _)
    have ht := ih fun q hq => h q (List.mem_cons_of_mem _ hq)
    simp only [List.flatMap_cons, List.map_cons, List.sum_cons, List.length_append]
    push_cast
    rw [ht]
    have h1 : ((p.1.writeBytes.length : Int)) = p.1.get_size := by
      simp only [VoxString.writeBytes, List.length_append, i32le_length, VoxString.get_size]
      push_cast
      omega
    have h2 : ((p.2.writeBytes.length : Int)) = p.2.get_size := by
      simp only [VoxString.writeBytes, List.length_append, i32le_length, VoxString.get_size]
      push_cast
      omega
    push_cast at h1 h2
    omega

/-- Under the stored-size invariant, a dictionary writes exactly
`get_size` bytes. -/
theorem dict_writeBytes_length (d : Dict) (h : d.wellSized) :
    ((d.writeBytes.length : Int)) = d.get_size := by
  unfold Dict.writeBytes Dict.get_size
  rw [dict_foldl_shift, List.length_append]
  push_cast
  rw [← pairsBytes_length d.pairs h]
  simp [i32le_length]

/-- Taking and dropping a 12-byte header. -/
theorem header_take_drop (hdr body : List Nat) (h : hdr.length = 12) :
    (hdr ++ body).take 12 = hdr ∧ ((hdr ++ body).drop 12).length = body.length := by
  constructor
  · rw [← h, List.take_left]
  · rw [← h, List.drop_left]

theorem write_chunkZ_length (name : List Nat) (s c : Int) (h : name.length = 4) :
    (write_chunkZ name s c).length = 12 := by
  simp [write_chunkZ, i32le_length, h]

theorem flatMap_i32le_length (l : List Int) : (l.flatMap i32le).length = 4 * l.length := by
  induction l with
  | nil => rfl
  | cons x t ih => simp [List.flatMap_cons, i32le_length, ih]; omega

/-- C4: each of the four node/material chunk writers emits a 12-byte
header whose declared content size is the record's `get_size()` and whose
declared children size is 0, followed by exactly `get_size()` content
bytes, provided every contained string's stored size field equals its
content's byte length. -/
theorem node_chunk_headers_declare_exact_size (t : nTRN) (g : nGRP) (s : nSHP) (mt : MATL)
    (ht1 : t.node_attributes.wellSized) (ht2 : t.frame_attributes.wellSized)
    (hg : g.node_attributes.wellSized)
    (hs1 : s.node_attributes.wellSized) (hs2 : s.model_attributes.wellSized)
    (hmt : mt.properties.wellSized) :
    (t.writeBytes.take 12 = trnTag ++ i32le t.get_size ++ i32le 0
      ∧ ((t.writeBytes.drop 12).length : Int) = t.get_size)
    ∧ (g.writeBytes.take 12 = grpTag ++ i32le g.get_size ++ i32le 0
      ∧ ((g.writeBytes.drop 12).length : Int) = g.get_size)
    ∧ (s.writeBytes.take 12 = shpTag ++ i32le s.get_size ++ i32le 0
      ∧ ((s.writeBytes.drop 12).length : Int) = s.get_size)
    ∧ (mt.writeBytes.take 12 = matlTag ++ i32le mt.get_size ++ i32le 0
      ∧ ((mt.writeBytes.drop 12).length : Int) = mt.get_size) := by
  have hda := dict_writeBytes_length t.node_attributes ht1
  have hdf := dict_writeBytes_length t.frame_attributes ht2
  have hdg := dict_writeBytes_length g.node_attributes hg
  have hdsa := dict_writeBytes_length s.node_attributes hs1
  have hdsm := dict_writeBytes_length s.model_attributes hs2
  have hdmt := dict_writeBytes_length mt.properties hmt
  refine ⟨⟨?_, ?_⟩, ⟨?_, ?_⟩, ⟨?_, ?_⟩, ⟨?_, ?_⟩⟩
  · exact (header_take_drop _ _ (write_chunkZ_length trnTag t.get_size 0 rfl)).1
  · show ((List.drop 12 (write_chunkZ trnTag t.get_size 0 ++ _)).length : Int) = _
    rw [(header_take_drop _ _ (write_chunkZ_length trnTag t.get_size 0 rfl)).2]
    simp only [List.length_append, i32le_length, nTRN.get_size]
    push_cast
    push_cast at hda hdf
    omega
  · exact (header_take_drop _ _ (write_chunkZ_length grpTag g.get_size 0 rfl)).1
  · show ((List.drop 12 (write_chunkZ grpTag g.get_size 0 ++ _)).length : Int) = _
    rw [(header_take_drop _ _ (write_chunkZ_length grpTag g.get_size 0 rfl)).2]
    simp only [List.length_append, i32le_length, nGRP.get_size, flatMap_i32le_length]
    push_cast
    push_cast at hdg
    omega
  · exact (header_take_drop _ _ (write_chunkZ_length shpTag s.get_size 0 rfl)).1
  · show ((List.drop 12 (write_chunkZ shpTag s.get_size 0 ++ _)).length : Int) = _
    rw [(header_take_drop _ _ (write_chunkZ_length shpTag s.get_size 0 rfl)).2]
    simp only [List.length_append, i32le_length, nSHP.get_size]
    push_cast
    push_cast at hdsa hdsm
    omega
  · exact (header_take_drop _ _ (write_chunkZ_length matlTag mt.get_size 0 rfl)).1
  · show ((List.drop 12 (write_chunkZ matlTag mt.get_size 0 ++ _)).length : Int) = _
    rw [(header_take_drop _ _ (write_chunkZ_length matlTag mt.get_size 0 rfl)).2]
    simp only [List.length_append, i32le_length, MATL.get_size]
    push_cast
    push_cast at hdmt
    omega

/-- C4 witness: the header/size theorem applied to concrete records with a
nonempty, well-sized dictionary. -/
theorem node_chunk_headers_witness :
    (sampleDict.wellSized ∧ (Dict.mk 0 []).wellSized)
    ∧ ((sampleTRN.writeBytes.take 12 = trnTag ++ i32le sampleTRN.get_size ++ i32le 0
        ∧ ((sampleTRN.writeBytes.drop 12).length : Int) = sampleTRN.get_size)
      ∧ (sampleGRP.writeBytes.take 12 = grpTag ++ i32le sampleGRP.get_size ++ i32le 0
        ∧ ((sampleGRP.writeBytes.drop 12).length : Int) = sampleGRP.get_size)
      ∧ (sampleSHP.writeBytes.take 12 = shpTag ++ i32le sampleSHP.get_size ++ i32le 0
        ∧ ((sampleSHP.writeBytes.drop 12).length : Int) = sampleSHP.get_size)
      ∧ (sampleMATL.writeBytes.take 12 = matlTag ++ i32le sampleMATL.get_size ++ i32le 0
        ∧ ((sampleMATL.writeBytes.drop 12).length : Int) = sampleMATL.get_size)) :=
  ⟨⟨by decide, by decide⟩,
    node_chunk_headers_declare_exact_size sampleTRN sampleGRP sampleSHP sampleMATL
      (by decide) (by decide) (by decide) (by decide) (by decide) (by decide)⟩

/-! ## Claim C1 (model codec round-trip) -/

/-- Byte values of the serialized voxel list at the record offsets. -/
theorem voxelBytes_getD (vs : List Voxel) : ∀ (i : Nat) (h : i < vs.length),
    (voxelBytes vs).getD (4 * i) 0 = (vs.get ⟨i, h⟩).x ∧
    (voxelBytes vs).getD (4 * i + 1) 0 = (vs.get ⟨i, h⟩).y ∧
    (voxelBytes vs).getD (4 * i + 2) 0 = (vs.get ⟨i, h⟩).z ∧
    (voxelBytes vs).getD (4 * i + 3) 0 = (vs.get ⟨i, h⟩).colorindex := by
  induction vs with
  | nil => intro i h; exact absurd h (by simp)
  | cons v t ih =>
    intro i h
    cases i with
    | zero => exact ⟨rfl, rfl, rfl, rfl⟩
    | succ j => exact ih j (Nat.lt_of_succ_lt_succ h)

/-- C1: for a model whose contents are representable in the machine types
enforced by the public construction APIs (u16 extents, u8 voxel
coordinates, palette index in [1,255], fewer than 2^31 voxels),
`Model::read` applied at the start of the byte sequence produced by
`Model::write` (with any supplied id) returns a model with the same
dimensions and the same voxel list in insertion order. -/
theorem model_write_read_roundtrip (m : Model) (id : Int)
    (hx : m.size.1 < 65536) (hy : m.size.2.1 < 65536) (hz : m.size.2.2 < 65536)
    (hn : m.voxels.length < 2147483648)
    (hv : ∀ v ∈ m.voxels,
      v.x < 256 ∧ v.y < 256 ∧ v.z < 256 ∧ 1 ≤ v.colorindex ∧ v.colorindex ≤ 255) :
    (Model.read m.writeBytes 0 id).size = m.size ∧
    (Model.read m.writeBytes 0 id).voxels = m.voxels := by
  obtain ⟨⟨sx, sy, sz⟩, vs, pos, rot, lay, nm, mid⟩ := m
  have hx2 : sx < 65536 := hx
  have hy2 : sy < 65536 := hy
  have hz2 : sz < 65536 := hz
  have hn2 : vs.length < 2147483648 := hn
  set B := Model.writeBytes ⟨(sx, sy, sz), vs, pos, rot, lay, nm, mid⟩ with hB
  have h12 : rawAt B 12
      = sx % 256 + 256 * (sx / 256 % 256) + 65536 * 0 + 16777216 * 0 := rfl
  have h16 : rawAt B 16
      = sy % 256 + 256 * (sy / 256 % 256) + 65536 * 0 + 16777216 * 0 := rfl
  have h20 : rawAt B 20
      = sz % 256 + 256 * (sz / 256 % 256) + 65536 * 0 + 16777216 * 0 := rfl
  have h36 : rawAt B 36
      = vs.length % 4294967296 % 256
        + 256 * (vs.length % 4294967296 / 256 % 256)
        + 65536 * (vs.length % 4294967296 / 65536 % 256)
        + 16777216 * (vs.length % 4294967296 / 16777216 % 256) := rfl
  have e12 : rawAt B 12 % 65536 = sx := by rw [h12]; omega
  have e16 : rawAt B 16 % 65536 = sy := by rw [h16]; omega
  have e20 : rawAt B 20 % 65536 = sz := by rw [h20]; omega
  have e36 : rawAt B 36 = vs.length := by rw [h36]; omega
  have hskip : ∀ j : Nat, B.getD (j + 40) 0 = (voxelBytes vs).getD j 0 := fun _ => rfl
  constructor
  · show (rawAt B 12 % 65536, rawAt B 16 % 65536, rawAt B 20 % 65536) = (sx, sy, sz)
    rw [e12, e16, e20]
  · show (List.range (if rawAt B 36 < 2147483648 then rawAt B 36 else 0)).map
        (fun i => Voxel.mk (B.getD (40 + 4 * i) 0) (B.getD (41 + 4 * i) 0)
          (B.getD (42 + 4 * i) 0) (B.getD (43 + 4 * i) 0)) = vs
    rw [e36, if_pos hn2]
    apply List.ext_getElem
    · simp
    · intro i h1 h2
      simp only [List.getElem_map, List.getElem_range]
      have hi : i < vs.length := by simpa using h1
      have c0 : 40 + 4 * i = 4 * i + 40 := by omega
      have c1 : 41 + 4 * i = (4 * i + 1) + 40 := by omega
      have c2 : 42 + 4 * i = (4 * i + 2) + 40 := by omega
      have c3 : 43 + 4 * i = (4 * i + 3) + 40 := by omega
      rw [c0, c1, c2, c3]
      simp only [hskip]
      obtain ⟨g1, g2, g3, g4⟩ := voxelBytes_getD vs i hi
      rw [g1, g2, g3, g4]
      rfl

/-- C1 witness: the round-trip theorem applied to a concrete model with
one voxel. -/
theorem model_write_read_roundtrip_witness :
    (({ Model.new 2 2 2 with voxels := [Voxel.mk 1 0 1 7] } : Model).size.1 < 65536
      ∧ ({ Model.new 2 2 2 with voxels := [Voxel.mk 1 0 1 7] } : Model).size.2.1 < 65536
      ∧ ({ Model.new 2 2 2 with voxels := [Voxel.mk 1 0 1 7] } : Model).size.2.2 < 65536
      ∧ ({ Model.new 2 2 2 with voxels := [Voxel.mk 1 0 1 7] } : Model).voxels.length < 2147483648
      ∧ ∀ v ∈ ({ Model.new 2 2 2 with voxels := [Voxel.mk 1 0 1 7] } : Model).voxels,
          v.x < 256 ∧ v.y < 256 ∧ v.z < 256 ∧ 1 ≤ v.colorindex ∧ v.colorindex ≤ 255)
    ∧ ((Model.read ({ Model.new 2 2 2 with voxels := [Voxel.mk 1 0 1 7] } : Model).writeBytes 0 9).size
        = ({ Model.new 2 2 2 with voxels := [Voxel.mk 1 0 1 7] } : Model).size
      ∧ (Model.read ({ Model.new 2 2 2 with voxels := [Voxel.mk 1 0 1 7] } : Model).writeBytes 0 9).voxels
        = ({ Model.new 2 2 2 with voxels := [Voxel.mk 1 0 1 7] } : Model).voxels) :=
  ⟨⟨by decide, by decide, by decide, by decide, by decide⟩,
    model_write_read_roundtrip _ 9 (by decide) (by decide) (by decide) (by decide) (by decide)⟩

/-! ## Claim C6 (make_nodes tree shape) -/

/-- Folding `add_child` over the model list appends the models' nodes. -/
theorem foldl_add_child (l : List Model) (t : NodeType) (a : NodeAttributes) (cs : List Node) :
    l.foldl (fun g m => g.add_child m.to_node) (Node.mk t a cs)
      = Node.mk t a (cs ++ l.map Model.to_node) := by
  induction l generalizing cs with
  | nil => simp
  | cons m l2 ih =>
    rw [List.foldl_cons,
      show (Node.mk t a cs).add_child m.to_node = Node.mk t a (cs ++ [m.to_node]) from rfl,
      ih]
    simp

/-- C6: `make_nodes` produces a root transform node with the default
(identity) placement whose single child is one group node whose children
are, in model-list order, each model's node: a transform node carrying
that model's placement (layer defaulting to 0, rotation and translation
absent when unset) with exactly one shape child carrying the model's id. -/
theorem make_nodes_builds_claimed_tree (v : VoxFile) :
    (v.make_nodes).root_node
      = Node.mk (.transform Transform.default) NodeAttributes.new
          [Node.mk .group NodeAttributes.new (v.models.map Model.to_node)]
    ∧ (∀ m : Model, m.to_node
        = Node.mk (.transform m.transform_data) ⟨m.name, none⟩
            [Node.mk (.shape m.id) NodeAttributes.new []])
    ∧ (∀ m : Model, m.layer = none → m.transform_data.layer = 0)
    ∧ (∀ m : Model, m.rotation = none → m.transform_data.rotation = none)
    ∧ (∀ m : Model, m.position = none → m.transform_data.translation = none) := by
  refine ⟨?_, ?_, ?_, ?_, ?_⟩
  · show (Node.new (.transform Transform.default) NodeAttributes.new).add_child
        (v.models.foldl (fun g m => g.add_child m.to_node)
          (Node.new .group NodeAttributes.new)) = _
    rw [show Node.new .group NodeAttributes.new = Node.mk .group NodeAttributes.new [] from rfl,
      foldl_add_child]
    rfl
  · intro m; rfl
  · intro m h; simp [Model.transform_data, h]
  · intro m h; simp [Model.transform_data, h]
  · intro m h; simp [Model.transform_data, h]

/-- C6 witness: the tree-shape theorem applied to a concrete container and
a concrete model with unset placement fields. -/
theorem make_nodes_builds_claimed_tree_witness :
    (sampleVox.make_nodes).root_node
      = Node.mk (.transform Transform.default) NodeAttributes.new
          [Node.mk .group NodeAttributes.new (sampleVox.models.map Model.to_node)]
    ∧ ((Model.new 1 1 1).layer = none ∧ (Model.new 1 1 1).transform_data.layer = 0)
    ∧ ((Model.new 1 1 1).rotation = none ∧ (Model.new 1 1 1).transform_data.rotation = none)
    ∧ ((Model.new 1 1 1).position = none
      ∧ (Model.new 1 1 1).transform_data.translation = none) :=
  ⟨(make_nodes_builds_claimed_tree sampleVox).1,
    ⟨rfl, (make_nodes_builds_claimed_tree sampleVox).2.2.1 (Model.new 1 1 1) rfl⟩,
    ⟨rfl, (make_nodes_builds_claimed_tree sampleVox).2.2.2.1 (Model.new 1 1 1) rfl⟩,
    ⟨rfl, (make_nodes_builds_claimed_tree sampleVox).2.2.2.2 (Model.new 1 1 1) rfl⟩⟩

/-! ## Claim C10 (change_model_data frame) -/

/-- C10: `change_model_data` touches only the position and layer fields of
models whose id matches; rotation, name, size, voxels, and id of every
model are unchanged, non-matching models are entirely unchanged, and the
container's other fields are untouched. -/
theorem change_model_data_frame (v : VoxFile) (id : Int)
    (pos : Option (Int × Int × Int)) (layer : Option Int) :
    (v.change_model_data id pos layer).models.length = v.models.length
    ∧ (v.change_model_data id pos layer).palette = v.palette
    ∧ (v.change_model_data id pos layer).root_node = v.root_node
    ∧ (v.change_model_data id pos layer).layers = v.layers
    ∧ ∀ (i : Nat) (h1 : i < v.models.length)
        (h2 : i < (v.change_model_data id pos layer).models.length),
        ((v.change_model_data id pos layer).models.get ⟨i, h2⟩).rotation
            = (v.models.get ⟨i, h1⟩).rotation
        ∧ ((v.change_model_data id pos layer).models.get ⟨i, h2⟩).name
            = (v.models.get ⟨i, h1⟩).name
        ∧ ((v.change_model_data id pos layer).models.get ⟨i, h2⟩).size
            = (v.models.get ⟨i, h1⟩).size
        ∧ ((v.change_model_data id pos layer).models.get ⟨i, h2⟩).voxels
            = (v.models.get ⟨i, h1⟩).voxels
        ∧ ((v.change_model_data id pos layer).models.get ⟨i, h2⟩).id
            = (v.models.get ⟨i, h1⟩).id
        ∧ ((v.models.get ⟨i, h1⟩).id ≠ id →
            (v.change_model_data id pos layer).models.get ⟨i, h2⟩ = v.models.get ⟨i, h1⟩)
        ∧ ((v.models.get ⟨i, h1⟩).id = id →
            (v.change_model_data id pos layer).models.get ⟨i, h2⟩
              = { v.models.get ⟨i, h1⟩ with position := pos, layer := layer }) := by
  refine ⟨by simp [VoxFile.change_model_data], rfl, rfl, rfl, ?_⟩
  intro i h1 h2
  have hget : (v.change_model_data id pos layer).models.get ⟨i, h2⟩
      = if (v.models.get ⟨i, h1⟩).id = id
        then { v.models.get ⟨i, h1⟩ with position := pos, layer := layer }
        else v.models.get ⟨i, h1⟩ := by
    simp [VoxFile.change_model_data, List.get_eq_getElem, List.getElem_map]
  by_cases hid : (v.models.get ⟨i, h1⟩).id = id
  · rw [hget, if_pos hid]
    refine ⟨rfl, rfl, rfl, rfl, rfl, fun hne => absurd hid hne, fun _ => rfl⟩
  · rw [hget, if_neg hid]
    exact ⟨rfl, rfl, rfl, rfl, rfl, fun _ => rfl, fun heq => absurd heq hid⟩

/-- C10 witness: the frame theorem applied to the concrete container at
the matching model (index 0, id 3) and the non-matching model (id 5). -/
theorem change_model_data_frame_witness :
    (sampleVox.change_model_data 3 (some (1, 2, 3)) (some 0)).models.length
        = sampleVox.models.length
    ∧ ((sampleVox.models.get ⟨1, by decide⟩).id ≠ 3
      ∧ (sampleVox.change_model_data 3 (some (1, 2, 3)) (some 0)).models.get ⟨1, by decide⟩
          = sampleVox.models.get ⟨1, by decide⟩) :=
  ⟨(change_model_data_frame sampleVox 3 (some (1, 2, 3)) (some 0)).1,
    by decide,
    ((change_model_data_frame sampleVox 3 (some (1, 2, 3)) (some 0)).2.2.2.2 1
      (by decide) (by decide)).2.2.2.2.2.1 (by decide)⟩

/-! ## Claim C7 (reconciliation eligibility and frame) -/

theorem applyTriples_append (ts1 ts2 : List (Int × Option (Int × Int × Int) × Option Int))
    (m : Model) :
    applyTriples (ts1 ++ ts2) m = applyTriples ts2 (applyTriples ts1 m) := by
  simp [applyTriples, List.foldl_append]

theorem applyTriples_not_mem (ts : List (Int × Option (Int × Int × Int) × Option Int))
    (m : Model) (h : ∀ tr ∈ ts, m.id ≠ tr.1) :
    applyTriples ts m = m := by
  induction ts with
  | nil => rfl
  | cons tr t ih =>
    show applyTriples t
        (if m.id = tr.1 then { m with position := tr.2.1, layer := tr.2.2 } else m) = m
    rw [if_neg (h tr (List.mem_cons_self _ _))]
    exact ih fun q hq => h q (List.mem_cons_of_mem _ hq)

mutual
/-- The reconciliation walk acts on the model list as the pointwise
application of the extracted placement triples, in traversal order. -/
theorem apply_to_models_eq : ∀ (n : Node) (v : VoxFile),
    n.apply_to_models v
      = { v with models := v.models.map (applyTriples n.placementTriples) }
  | .mk t a cs, v => by
    rw [Node.apply_to_models, Node.placementTriples]
    cases hct : VoxFile.check_transform (Node.mk t a cs) with
    | none =>
      dsimp only
      exact applyChildren_eq cs v
    | some tr =>
      obtain ⟨id, pos, layer⟩ := tr
      dsimp only
      rw [applyChildren_eq cs (v.change_model_data id pos layer)]
      dsimp only [VoxFile.change_model_data]
      congr 1
      rw [List.map_map]
      rfl

/-- The walk over a child list acts as the pointwise application of the
children's placement triples. -/
theorem applyChildren_eq : ∀ (cs : List Node) (v : VoxFile),
    Node.applyChildren cs v
      = { v with models := v.models.map (applyTriples (Node.triplesChildren cs)) }
  | [], v => by
    rw [Node.applyChildren, Node.triplesChildren]
    have hid : v.models.map (applyTriples []) = v.models := by
      rw [show applyTriples ([] : List (Int × Option (Int × Int × Int) × Option Int)) = id
        from rfl, List.map_id]
    rw [hid]
  | c :: t, v => by
    rw [Node.applyChildren, Node.triplesChildren, apply_to_models_eq c v, applyChildren_eq t]
    dsimp only
    congr 1
    rw [List.map_map]
    apply List.map_congr_left
    intro m _
    exact (applyTriples_append _ _ m).symm
end

/-- C7: a transform node whose first child is a shape carrying model id m
yields the placement data (m, translation, layer of the transform), and
the walk applies exactly that data via `change_model_data`; a transform
node without a shape child, and any non-transform node, yields no
placement data; and the walk leaves every model whose id is never
referenced by an eligible transform/shape pair entirely unchanged. -/
theorem reconciliation_eligibility_and_frame :
    (∀ (tdata : Transform) (a a2 : NodeAttributes) (cs2 rest : List Node) (sid : Int),
      VoxFile.check_transform
          (Node.mk (.transform tdata) a (Node.mk (.shape sid) a2 cs2 :: rest))
        = some (sid, tdata.translation, some tdata.layer))
    ∧ (∀ (v : VoxFile) (tdata : Transform) (a a2 : NodeAttributes) (sid : Int),
      (Node.mk (.transform tdata) a [Node.mk (.shape sid) a2 []]).apply_to_models v
        = v.change_model_data sid tdata.translation (some tdata.layer))
    ∧ (∀ (tdata : Transform) (a : NodeAttributes) (cs : List Node),
      (∀ c ∈ cs, ∀ sid : Int, c.node_type ≠ .shape sid) →
      VoxFile.check_transform (Node.mk (.transform tdata) a cs) = none)
    ∧ (∀ (a : NodeAttributes) (cs : List Node),
      VoxFile.check_transform (Node.mk .group a cs) = none)
    ∧ (∀ (sid : Int) (a : NodeAttributes) (cs : List Node),
      VoxFile.check_transform (Node.mk (.shape sid) a cs) = none)
    ∧ (∀ (root : Node) (v : VoxFile),
      (root.apply_to_models v).models.length = v.models.length)
    ∧ (∀ (root : Node) (v : VoxFile) (i : Nat), i < v.models.length →
      (v.models.getD i (Model.new 0 0 0)).id ∉ root.placementIds →
      (root.apply_to_models v).models.getD i (Model.new 0 0 0)
        = v.models.getD i (Model.new 0 0 0)) := by
  refine ⟨?_, ?_, ?_, ?_, ?_, ?_, ?_⟩
  · intro tdata a a2 cs2 rest sid
    simp [VoxFile.check_transform, Node.has_child_shape, Node.node_type, Node.children]
  · intro v tdata a a2 sid
    rw [Node.apply_to_models]
    have hct : VoxFile.check_transform
        (Node.mk (.transform tdata) a [Node.mk (.shape sid) a2 []])
        = some (sid, tdata.translation, some tdata.layer) := by
      simp [VoxFile.check_transform, Node.has_child_shape, Node.node_type, Node.children]
    rw [hct]
    have hnil : ∀ w : VoxFile, Node.applyChildren [] w = w := fun w => by
      rw [Node.applyChildren]
    show Node.applyChildren [Node.mk (.shape sid) a2 []]
        (v.change_model_data sid tdata.translation (some tdata.layer)) = _
    rw [Node.applyChildren, Node.apply_to_models]
    have hcs : VoxFile.check_transform (Node.mk (.shape sid) a2 []) = none := rfl
    rw [hcs]
    exact hnil _
  · intro tdata a cs hns
    have hgate : (Node.mk (.transform tdata) a cs).has_child_shape = false := by
      simp only [Node.has_child_shape, Node.children, List.any_eq_false]
      intro c hc
      cases hcn : c.node_type with
      | shape sid => exact absurd hcn (hns c hc sid)
      | transform td => simp [hcn]
      | group => simp [hcn]
    simp [VoxFile.check_transform, Node.node_type, hgate]
  · intro a cs; rfl
  · intro sid a cs; rfl
  · intro root v
    rw [apply_to_models_eq]
    simp
  · intro root v i hlen hnm
    rw [apply_to_models_eq]
    have hmap : ({ v with models := v.models.map (applyTriples root.placementTriples) } : VoxFile).models.getD i (Model.new 0 0 0)
        = applyTriples root.placementTriples (v.models.getD i (Model.new 0 0 0)) := by
      show (v.models.map (applyTriples root.placementTriples)).getD i (Model.new 0 0 0) = _
      rcases List.getD_eq_getElem?_getD (v.models.map (applyTriples root.placementTriples)) i (Model.new 0 0 0) with h
      rw [h, List.getElem?_map, List.getD_eq_getElem?_getD,
        List.getElem?_eq_getElem hlen]
      rfl
    rw [hmap]
    apply applyTriples_not_mem
    intro tr htr heq
    exact hnm (List.mem_map.mpr ⟨tr, htr, heq.symm⟩)

/-- C7 witness: the eligibility/frame theorem applied to a concrete tree
referencing model id 3 and a concrete container whose second model (id 5)
is never referenced. -/
theorem reconciliation_witness :
    (VoxFile.check_transform sampleRoot
        = some (3, Transform.default.translation, some Transform.default.layer))
    ∧ (sampleRoot.apply_to_models sampleVox).models.length = sampleVox.models.length
    ∧ ((1 < sampleVox.models.length
        ∧ (sampleVox.models.getD 1 (Model.new 0 0 0)).id ∉ sampleRoot.placementIds)
      ∧ (sampleRoot.apply_to_models sampleVox).models.getD 1 (Model.new 0 0 0)
          = sampleVox.models.getD 1 (Model.new 0 0 0)) :=
  ⟨reconciliation_eligibility_and_frame.1 Transform.default NodeAttributes.new
      NodeAttributes.new [] [] 3,
    reconciliation_eligibility_and_frame.2.2.2.2.2.1 sampleRoot sampleVox,
    ⟨by decide, by
      simp [Node.placementIds, Node.placementTriples, Node.triplesChildren,
        VoxFile.check_transform, Node.has_child_shape, Node.node_type, Node.children,
        sampleRoot, sampleVox, Model.new]⟩,
    reconciliation_eligibility_and_frame.2.2.2.2.2.2 sampleRoot sampleVox 1
      (by decide) (by
        simp [Node.placementIds, Node.placementTriples, Node.triplesChildren,
          VoxFile.check_transform, Node.has_child_shape, Node.node_type, Node.children,
          sampleRoot, sampleVox, Model.new])⟩

/-! ## Claim C5 (find_chunk composed with num_of_chunks) -/

theorem sliceN_exact (P x rest : List Nat) (hx : x.length = 4) :
    sliceN (P ++ (x ++ rest)) P.length 4 = some x := by
  unfold sliceN
  rw [if_pos]
  · congr 1
    rw [List.drop_left, ← hx, List.take_left]
  · simp only [List.length_append]
    omega

theorem fromLE4_leBytes4 (n : Nat) :
    fromLE4 ((leBytes4 n).getD 0 0) ((leBytes4 n).getD 1 0) ((leBytes4 n).getD 2 0)
      ((leBytes4 n).getD 3 0) = n % 4294967296 := by
  show fromLE4 (n % 256) (n / 256 % 256) (n / 65536 % 256) (n / 16777216 % 256)
    = n % 4294967296
  unfold fromLE4
  omega

theorem leBytes4_length (n : Nat) : (leBytes4 n).length = 4 := rfl

theorem chunk_bytes_length (c : Chunk) (h : c.tag.length = 4) :
    c.bytes.length = 12 + c.content.length := by
  simp only [Chunk.bytes, List.length_append, leBytes4_length, h]

theorem tileChunks_length_ge (cs : List Chunk) (h : ∀ c ∈ cs, c.tag.length = 4) :
    12 * cs.length ≤ (tileChunks cs).length := by
  induction cs with
  | nil => simp [tileChunks]
  | cons c t ih =>
    have hc := h c (List.mem_cons_self _ _)
    have ht := ih fun q hq => h q (List.mem_cons_of_mem _ hq)
    simp only [tileChunks, List.length_append, List.length_cons]
    rw [chunk_bytes_length c hc]
    omega

/-- Decomposition of the buffer exposing the head chunk's tag bytes. -/
theorem tile_cons_tag (P : List Nat) (c : Chunk) (t : List Chunk) :
    P ++ tileChunks (c :: t)
      = P ++ (c.tag ++ (leBytes4 c.content.length
          ++ (leBytes4 c.childrenSize ++ (c.content ++ tileChunks t)))) := by
  simp [tileChunks, Chunk.bytes, List.append_assoc]

/-- Decomposition of the buffer exposing the head chunk's size bytes. -/
theorem tile_cons_size (P : List Nat) (c : Chunk) (t : List Chunk) :
    P ++ tileChunks (c :: t)
      = (P ++ c.tag) ++ (leBytes4 c.content.length
          ++ (leBytes4 c.childrenSize ++ (c.content ++ tileChunks t))) := by
  simp [tileChunks, Chunk.bytes, List.append_assoc]

/-- Decomposition of the buffer exposing the tail tiling. -/
theorem tile_cons_rest (P : List Nat) (c : Chunk) (t : List Chunk) :
    P ++ tileChunks (c :: t) = (P ++ c.bytes) ++ tileChunks t := by
  simp [tileChunks, List.append_assoc]

theorem tile_cons_buflen (P : List Nat) (c : Chunk) (t : List Chunk) (hc : c.tag.length = 4) :
    (P ++ tileChunks (c :: t)).length
      = P.length + (12 + c.content.length) + (tileChunks t).length := by
  simp only [tileChunks, List.length_append, chunk_bytes_length c hc]
  omega

/-- The counting scan over a well-formed tiling adds the number of
matching chunks to the running count. -/
theorem numLoop_spec (name : List Nat) :
    ∀ (cs : List Chunk) (P : List Nat) (fuel : Nat) (count : Int),
    (∀ c ∈ cs, c.tag.length = 4) →
    (P ++ tileChunks cs).length < 4294967296 →
    cs.length + 1 ≤ fuel →
    numLoop (P ++ tileChunks cs) name fuel P.length count
      = .ok (count + (countMatches name cs : Int)) := by
  intro cs
  induction cs with
  | nil =>
    intro P fuel count htags hlen hfuel
    obtain ⟨f, rfl⟩ : ∃ f, fuel = f + 1 := ⟨fuel - 1, by omega⟩
    rw [numLoop, if_neg]
    · simp [countMatches]
    · simp [tileChunks]
  | cons c t ih =>
    intro P fuel count htags hlen hfuel
    obtain ⟨f, rfl⟩ : ∃ f, fuel = f + 1 := ⟨fuel - 1, by omega⟩
    have hc := htags c (List.mem_cons_self _ _)
    have htagst : ∀ q ∈ t, q.tag.length = 4 :=
      fun q hq => htags q (List.mem_cons_of_mem _ hq)
    have hblen := tile_cons_buflen P c t hc
    have hpos : P.length < (P ++ tileChunks (c :: t)).length := by
      rw [hblen]; omega
    have htagread : sliceN (P ++ tileChunks (c :: t)) P.length 4 = some c.tag := by
      rw [tile_cons_tag]
      exact sliceN_exact P c.tag _ hc
    have hplen4 : (P ++ c.tag).length = P.length + 4 := by
      simp [hc]
    have hsizeread : sliceN (P ++ tileChunks (c :: t)) (P.length + 4) 4
        = some (leBytes4 c.content.length) := by
      rw [tile_cons_size, ← hplen4]
      exact sliceN_exact (P ++ c.tag) (leBytes4 c.content.length) _ (leBytes4_length _)
    have hsmall : c.content.length % 4294967296 = c.content.length :=
      Nat.mod_eq_of_lt (by omega)
    have hadv : (P.length + 4 + c.content.length % 4294967296 + 8) % 4294967296
        = (P ++ c.bytes).length := by
      have h1 : (P ++ c.bytes).length = P.length + (12 + c.content.length) := by
        simp [chunk_bytes_length c hc]
      rw [hsmall, h1]
      omega
    rw [numLoop, if_pos hpos, htagread]
    dsimp only
    rw [hsizeread]
    dsimp only
    rw [fromLE4_leBytes4, hadv, tile_cons_rest P c t]
    have hlen2 : ((P ++ c.bytes) ++ tileChunks t).length < 4294967296 := by
      rw [← tile_cons_rest]
      exact hlen
    have hfuel2 : t.length + 1 ≤ f := by
      simp only [List.length_cons] at hfuel
      omega
    rw [ih (P ++ c.bytes) f (if c.tag = name then count + 1 else count) htagst hlen2 hfuel2]
    by_cases htn : c.tag = name
    · simp only [countMatches, if_pos htn]
      congr 1
      push_cast
      ring
    · simp only [countMatches, if_neg htn]
      congr 1
      push_cast
      ring

/-- The find scan over a well-formed tiling: with `numChunk - 1` matches
already consumed, the scan returns the offset of the pending match when it
exists, panics on an empty tiling, and returns the NotFound error
otherwise. -/
theorem findLoop_spec (name : List Nat) (number : Int) :
    ∀ (cs : List Chunk) (P : List Nat) (fuel : Nat) (numChunk : Int) (prevName : List Nat),
    (∀ c ∈ cs, c.tag.length = 4) →
    (P ++ tileChunks cs).length < 4294967296 →
    cs.length + 1 ≤ fuel →
    1 ≤ numChunk → numChunk ≤ number →
    findLoop (P ++ tileChunks cs) name number fuel P.length numChunk prevName
      = if (number - numChunk).toNat < countMatches name cs
        then .ok ((matchOffsets name cs P.length).getD (number - numChunk).toNat 0)
        else if cs = [] then FindRes.panicked else FindRes.err := by
  intro cs
  induction cs with
  | nil =>
    intro P fuel numChunk prevName htags hlen hfuel h1 h2
    obtain ⟨f, rfl⟩ : ∃ f, fuel = f + 1 := ⟨fuel - 1, by omega⟩
    have hlen0 : (P ++ tileChunks []).length = P.length := by simp [tileChunks]
    have hcond : ¬ (P.length + 4 ≤ (P ++ tileChunks []).length) := by
      rw [hlen0]; omega
    have hnone : sliceN (P ++ tileChunks []) P.length 4 = none := by
      unfold sliceN
      rw [if_neg hcond]
    rw [findLoop, if_neg (by rintro ⟨hpn, hnc⟩; omega), hnone]
    simp [countMatches]
  | cons c t ih =>
    intro P fuel numChunk prevName htags hlen hfuel h1 h2
    obtain ⟨f, rfl⟩ : ∃ f, fuel = f + 1 := ⟨fuel - 1, by omega⟩
    have hc := htags c (List.mem_cons_self _ _)
    have htagst : ∀ q ∈ t, q.tag.length = 4 :=
      fun q hq => htags q (List.mem_cons_of_mem _ hq)
    have hblen := tile_cons_buflen P c t hc
    have htagread : sliceN (P ++ tileChunks (c :: t)) P.length 4 = some c.tag := by
      rw [tile_cons_tag]
      exact sliceN_exact P c.tag _ hc
    have hplen4 : (P ++ c.tag).length = P.length + 4 := by simp [hc]
    have hsizeread : sliceN (P ++ tileChunks (c :: t)) (P.length + 4) 4
        = some (leBytes4 c.content.length) := by
      rw [tile_cons_size, ← hplen4]
      exact sliceN_exact (P ++ c.tag) (leBytes4 c.content.length) _ (leBytes4_length _)
    have hsmall : c.content.length % 4294967296 = c.content.length :=
      Nat.mod_eq_of_lt (by omega)
    have hpblen : (P ++ c.bytes).length = P.length + (12 + c.content.length) := by
      simp [chunk_bytes_length c hc]
    have hadv : (P.length + 4 + c.content.length % 4294967296 + 8) % 4294967296
        = (P ++ c.bytes).length := by
      rw [hsmall, hpblen]
      omega
    have hmodlen : (P ++ tileChunks (c :: t)).length % 4294967296
        = (P ++ tileChunks (c :: t)).length := Nat.mod_eq_of_lt hlen
    rw [findLoop, if_neg (by rintro ⟨hpn, hnc⟩; omega), htagread]
    dsimp only
    by_cases hhit : c.tag = name ∧ numChunk = number
    · rw [if_pos hhit]
      have hk0 : (number - numChunk).toNat = 0 := by omega
      have hcm : (number - numChunk).toNat < countMatches name (c :: t) := by
        rw [hk0, countMatches, if_pos hhit.1]
        omega
      rw [if_pos hcm, hk0, matchOffsets, if_pos hhit.1]
      rfl
    · rw [if_neg hhit, hsizeread]
      dsimp only
      rw [fromLE4_leBytes4, hadv, hmodlen]
      rcases t with _ | ⟨c2, t2⟩
      · -- last chunk: the advance reaches the end of the buffer
        have hend : (P ++ c.bytes).length ≥ (P ++ tileChunks [c]).length := by
          rw [hpblen, tile_cons_buflen P c [] hc]
          simp [tileChunks]
        rw [if_pos hend]
        have hnot : ¬ ((number - numChunk).toNat < countMatches name [c]) := by
          by_cases htn : c.tag = name
          · have hne : numChunk ≠ number := fun he => hhit ⟨htn, he⟩
            rw [countMatches, if_pos htn, countMatches]
            omega
          · rw [countMatches, if_neg htn, countMatches]
            omega
        rw [if_neg hnot, if_neg (by simp)]
      · -- further chunks follow: the scan continues
        have ht12 : 12 * (c2 :: t2).length ≤ (tileChunks (c2 :: t2)).length :=
          tileChunks_length_ge _ htagst
        have hcont : ¬ ((P ++ c.bytes).length ≥ (P ++ tileChunks (c :: c2 :: t2)).length) := by
          rw [hpblen, hblen]
          simp only [List.length_cons] at ht12 ⊢
          omega
        rw [if_neg hcont, tile_cons_rest P c (c2 :: t2)]
        have hlen2 : (((P ++ c.bytes)) ++ tileChunks (c2 :: t2)).length < 4294967296 := by
          rw [← tile_cons_rest]
          exact hlen
        have hfuel2 : (c2 :: t2).length + 1 ≤ f := by
          simp only [List.length_cons] at hfuel ⊢
          omega
        by_cases htn : c.tag = name
        · have hne : numChunk ≠ number := fun he => hhit ⟨htn, he⟩
          rw [if_pos htn]
          rw [ih (P ++ c.bytes) f (numChunk + 1) c.tag htagst hlen2 hfuel2
            (by omega) (by omega)]
          have hkk : (number - numChunk).toNat = (number - (numChunk + 1)).toNat + 1 := by
            omega
          have hcm : countMatches name (c :: c2 :: t2) = 1 + countMatches name (c2 :: t2) := by
            rw [countMatches, if_pos htn]
          have hmo : matchOffsets name (c :: c2 :: t2) P.length
              = P.length :: matchOffsets name (c2 :: t2) (P.length + (12 + c.content.length)) := by
            rw [matchOffsets, if_pos htn, List.singleton_append]
          rw [hkk, hcm, hmo]
          simp only [List.getD_cons_succ, ← hpblen]
          by_cases hk : (number - (numChunk + 1)).toNat < countMatches name (c2 :: t2)
          · rw [if_pos hk, if_pos (show (number - (numChunk + 1)).toNat + 1
              < 1 + countMatches name (c2 :: t2) by omega)]
          · rw [if_neg hk, if_neg (show ¬ ((number - (numChunk + 1)).toNat + 1
              < 1 + countMatches name (c2 :: t2)) by omega)]
            simp
        · rw [if_neg htn]
          rw [ih (P ++ c.bytes) f numChunk c.tag htagst hlen2 hfuel2 h1 h2]
          have hcm2 : countMatches name (c :: c2 :: t2) = countMatches name (c2 :: t2) := by
            rw [countMatches, if_neg htn, Nat.zero_add]
          have hmo2 : matchOffsets name (c :: c2 :: t2) P.length
              = matchOffsets name (c2 :: t2) (P.length + (12 + c.content.length)) := by
            rw [matchOffsets, if_neg htn, List.nil_append]
          rw [hcm2, hmo2]
          simp only [← hpblen]
          by_cases hk : (number - numChunk).toNat < countMatches name (c2 :: t2)
          · simp only [if_pos hk]
          · simp only [if_neg hk]
            simp

/-- C5 counterexample: on the buffer consisting only of the 8-byte outer
header — a well-formed tiling of zero chunks — `num_of_chunks` returns 0,
yet `find_chunk` with n = 1 > 0 panics on an out-of-range slice instead of
returning the NotFound error the claim requires for every n > count. -/
theorem find_chunk_empty_tiling_panics :
    num_of_chunks [0, 0, 0, 0, 0, 0, 0, 0] [77, 65, 73, 78] = .ok 0
    ∧ find_chunk [0, 0, 0, 0, 0, 0, 0, 0] [77, 65, 73, 78] 1 = .panicked
    ∧ find_chunk [0, 0, 0, 0, 0, 0, 0, 0] [77, 65, 73, 78] 1 ≠ FindRes.err :=
  ⟨rfl, rfl, by decide⟩

/-- C5 (amended): on a buffer made of an 8-byte outer header followed by a
well-formed tiling of at least one chunk, `num_of_chunks` counts the
matching chunks; `find_chunk` succeeds with the byte offset of the n-th
(1-indexed) matching chunk for every n in [1, count], and fails with the
NotFound error for every n > count. -/
theorem find_chunk_nth_and_count (hdr : List Nat) (cs : List Chunk) (name : List Nat)
    (hhdr : hdr.length = 8) (hne : cs ≠ [])
    (htags : ∀ c ∈ cs, c.tag.length = 4)
    (hlen : (hdr ++ tileChunks cs).length < 4294967296) :
    num_of_chunks (hdr ++ tileChunks cs) name = .ok ((countMatches name cs : Int))
    ∧ (∀ n : Int, 1 ≤ n → n ≤ (countMatches name cs : Int) →
        find_chunk (hdr ++ tileChunks cs) name n
          = .ok ((matchOffsets name cs 8).getD (n - 1).toNat 0))
    ∧ (∀ n : Int, (countMatches name cs : Int) < n →
        find_chunk (hdr ++ tileChunks cs) name n = .err) := by
  have hfuel : cs.length + 1 ≤ (hdr ++ tileChunks cs).length + 1 := by
    have h12 := tileChunks_length_ge cs htags
    simp only [List.length_append]
    omega
  refine ⟨?_, ?_, ?_⟩
  · have h := numLoop_spec name cs hdr ((hdr ++ tileChunks cs).length + 1) 0 htags hlen hfuel
    rw [hhdr] at h
    unfold num_of_chunks
    simpa using h
  · intro n h1n hncm
    have h := findLoop_spec name n cs hdr ((hdr ++ tileChunks cs).length + 1) 1 []
      htags hlen hfuel (by omega) h1n
    rw [hhdr] at h
    unfold find_chunk
    rw [h, if_pos (by omega)]
  · intro n hgt
    have h1n : (1 : Int) ≤ n := by omega
    have h := findLoop_spec name n cs hdr ((hdr ++ tileChunks cs).length + 1) 1 []
      htags hlen hfuel (by omega) h1n
    rw [hhdr] at h
    unfold find_chunk
    rw [h, if_neg (by omega), if_neg hne]

/-- C5 witness: the amended theorem applied to a concrete two-chunk
buffer, locating the single PACK chunk at n = 1 and failing at n = 2. -/
theorem find_chunk_nth_and_count_witness :
    (([0, 0, 0, 0, 0, 0, 0, 0] : List Nat).length = 8
      ∧ sampleChunks ≠ []
      ∧ (∀ c ∈ sampleChunks, c.tag.length = 4)
      ∧ (([0, 0, 0, 0, 0, 0, 0, 0] : List Nat) ++ tileChunks sampleChunks).length < 4294967296)
    ∧ num_of_chunks ([0, 0, 0, 0, 0, 0, 0, 0] ++ tileChunks sampleChunks) [80, 65, 67, 75]
        = .ok ((countMatches [80, 65, 67, 75] sampleChunks : Int))
    ∧ find_chunk ([0, 0, 0, 0, 0, 0, 0, 0] ++ tileChunks sampleChunks) [80, 65, 67, 75] 1
        = .ok ((matchOffsets [80, 65, 67, 75] sampleChunks 8).getD ((1 : Int) - 1).toNat 0)
    ∧ find_chunk ([0, 0, 0, 0, 0, 0, 0, 0] ++ tileChunks sampleChunks) [80, 65, 67, 75] 2
        = .err :=
  ⟨⟨rfl, by decide, by decide, by decide⟩,
    (find_chunk_nth_and_count [0, 0, 0, 0, 0, 0, 0, 0] sampleChunks [80, 65, 67, 75] rfl (by decide) (by decide) (by decide)).1,
    (find_chunk_nth_and_count [0, 0, 0, 0, 0, 0, 0, 0] sampleChunks [80, 65, 67, 75] rfl (by decide) (by decide) (by decide)).2.1
      1 (by decide) (by decide),
    (find_chunk_nth_and_count [0, 0, 0, 0, 0, 0, 0, 0] sampleChunks [80, 65, 67, 75] rfl (by decide) (by decide) (by decide)).2.2
      2 (by decide)⟩

end CreateVox
